import Mathlib

/-!
Verification development for the transparent forwarding proxy
(`any_proxy.go`).  The definitions below are a shallow embedding of the
Go source: the connection pool (`clientPool` with `add`/`del`/`size`/`gc`),
the upstream dialer (`dial`), the CONNECT handshake loop of
`handleProxyConnection`, the director (`buildDirectors`/`getDirector`),
the original-destination decoder of `getOriginalDst`, the reverse-lookup
cache (`reverseLookupCache`), and the decimal printer `itod`.

Machine integers are modelled as `Nat` with explicit `% 2 ^ 64`
(`uint64` id counter) and `% 65536` (`uint16` port arithmetic) where the
Go code can wrap.  Sockets carry no data relevant to the claims, so a
live connection handle is `Option Unit`: `some ()` for a non-nil
`net.Conn`, `none` for a nil one (Go stores nil conns in the pool map).
Strings read from or written to sockets are byte/char lists or `String`s.
-/

/-! ## Connection pool (`clientPool`, any_proxy.go lines 138-208) -/

/-- Model of `clientPool`: `pool` is the `map[uint64]net.Conn` as an
association list with distinct keys, `idCounter` the `uint64` counter. -/
structure clientPool where
  pool : List (Nat × Option Unit)
  idCounter : Nat
  deriving Repr, DecidableEq

/-- `add` (lines 152-160): increment the counter atomically (uint64 wrap)
and install the mapping; returns the tracking id. Map assignment replaces
any existing binding of the same key. -/
def clientPool.add (c : clientPool) (conn : Option Unit) : Nat × clientPool :=
  let id := (c.idCounter + 1) % 2 ^ 64
  (id, ⟨(id, conn) :: c.pool.filter (fun e => e.1 != id), id⟩)

/-- `del` (lines 163-171): remove the mapping if present (idempotent). -/
def clientPool.del (c : clientPool) (id : Nat) : clientPool :=
  ⟨c.pool.filter (fun e => e.1 != id), c.idCounter⟩

/-- `size` (lines 173-178). -/
def clientPool.size (c : clientPool) : Nat :=
  c.pool.length

/-- The ids currently in the pool. -/
def clientPool.keys (c : clientPool) : List Nat :=
  c.pool.map Prod.fst

/-- Membership test for an id. -/
def clientPool.hasId (c : clientPool) (id : Nat) : Bool :=
  c.pool.any (fun e => e.1 == id)

/-- Look up the connection stored for an id. -/
def clientPool.lookupConn (c : clientPool) (id : Nat) : Option (Option Unit) :=
  (c.pool.find? (fun e => e.1 == id)).map Prod.snd

/-- Delete a list of ids in order (the eviction loop body of `gc`,
lines 200-206; closing the sockets has no effect on the pool state). -/
def clientPool.delList (c : clientPool) (ids : List Nat) : clientPool :=
  ids.foldl (fun q i => q.del i) c

/-- `gc` (lines 181-208): no-op below the `gMaxConn` ceiling; otherwise
delete the first `size - (gMaxConn - 512)` ids of the shuffled id list.
The result of `rand.Shuffle` is passed in as `shuffle`, an arbitrary
permutation of the pool's keys. -/
def clientPool.gc (c : clientPool) (gMaxConn : Nat) (shuffle : List Nat) : clientPool :=
  if c.pool.length < gMaxConn then c
  else c.delList (shuffle.take (c.pool.length - (gMaxConn - 512)))

/-- The pool the process starts with (`newClientPool`, lines 144-149). -/
def emptyPool : clientPool := ⟨[], 0⟩

/-- An externally observable pool operation, for stating invariants over
arbitrary operation sequences. -/
inductive PoolOp where
  | add (conn : Option Unit)
  | del (id : Nat)
  deriving Repr, DecidableEq

/-- Run a sequence of `add`/`del` operations. -/
def execPoolOps (c : clientPool) : List PoolOp → clientPool
  | [] => c
  | .add conn :: rest => execPoolOps (c.add conn).2 rest
  | .del id :: rest => execPoolOps (c.del id) rest

/-- Well-formedness: the association list has pairwise distinct keys
(always true of a Go map). -/
def clientPool.WF (c : clientPool) : Prop :=
  c.keys.Nodup

/-! ## CONNECT status-line classification (lines 744-771) -/

/-- Model of `strings.Contains s sub` over char lists: does `sub` occur
as a contiguous substring of `s`?  `startsWithL sub s` checks an
occurrence at the head. -/
def startsWithL : List Char → List Char → Bool
  | [], _ => true
  | _ :: _, [] => false
  | a :: as, b :: bs => a == b && startsWithL as bs

/-- `strings.Contains(s, sub)`. -/
def containsSubstr : List Char → List Char → Bool
  | [], sub => startsWithL sub []
  | a :: t, sub => startsWithL sub (a :: t) || containsSubstr t sub

/-- How `handleProxyConnection` treats one CONNECT status line. -/
inductive StatusClass where
  | badRequest
  | redirect
  | tryNext
  | success
  deriving Repr, DecidableEq

/-- The status-line tests of lines 751-771, in source order.  Line 758 is
`strings.Contains(status, "301") || strings.Contains(status, "302") &&
gClientRedirects == 1`; Go gives `&&` higher precedence than `||`. -/
def classifyStatus (status : List Char) (gClientRedirects : Bool) : StatusClass :=
  if containsSubstr status (("400").toList) then .badRequest
  else if containsSubstr status (("301").toList) ||
      (containsSubstr status (("302").toList) && gClientRedirects) then .redirect
  else if containsSubstr status (("200").toList) == false then .tryNext
  else .success

/-- The exact 503 bytes of line 782. -/
def err503 : List Char :=
  ("HTTP/1.0 503 Service Unavailable\r\nServer: go-any-proxy\r\nX-AnyProxy-Error: ERR_NO_PROXIES\r\n\r\n").toList

/-! ## Upstream dialer (`dial`, lines 606-635) -/

/-- Where a call to `dial` can stop.  `parseFail` covers the three early
returns (`SplitHostPort`, `ResolveIPAddr`, `Atoi`, lines 607-621), which
return `(nil, 0, err)` without touching the pool; `connectFail` is a
`net.DialTCP` error (lines 628-631), after which the nil conn is still
added to the pool. -/
inductive DialRes where
  | parseFail
  | connectFail
  | connectOk
  deriving Repr, DecidableEq

/-- `dial(spec)`: returns `(conn, rid, err-flag, pool)`.  `cp.gc()` runs
before the connect attempt (line 626); `shuffle` is the permutation that
gc run would use. -/
def dial (gMaxConn : Nat) (shuffle : List Nat) (r : DialRes) (cp : clientPool) :
    Option Unit × Nat × Bool × clientPool :=
  match r with
  | .parseFail => (none, 0, true, cp)
  | .connectFail =>
    let p1 := cp.gc gMaxConn shuffle
    let a := p1.add none
    (none, a.1, true, a.2)
  | .connectOk =>
    let p1 := cp.gc gMaxConn shuffle
    let a := p1.add (some ())
    (some (), a.1, false, a.2)

/-! ## Per-connection orchestrator (`handleProxyConnection`, lines 674-789)

The loop over `gProxyServers` is modelled attempt by attempt: each
upstream contributes its dial outcome, the shuffle its inner gc would
use, and the status line `bufio.ReadString('\n')` produced (`none` for a
read error).  The CONNECT hostname selection (reverse lookup, SNI) and
the bytes written to the proxy are irrelevant to the pool/503 claims and
are not tracked; `connectString` below models the request bytes.
Client-side effects are tracked exactly: the only client writes the
handler performs are the relayed redirect status line (line 761) and the
503 response (line 782).  The synchronous `copy(...cid)` calls of lines
755 and 762 run `cp.del(cid)` and close both sockets before returning;
the `go copy` pair of lines 787-788 is recorded in `pendingDels`
(each copier deletes its tag when it eventually runs). -/

/-- One upstream attempt as seen by the loop. -/
structure Attempt where
  dialRes : DialRes
  shuffle : List Nat
  statusLine : Option (List Char)
  deriving Repr, DecidableEq

/-- How the handler returned. -/
inductive Outcome where
  | noProxyConn
  | unavailable503
  | badRequest400
  | redirectRelay
  | spliced
  | directFailed
  | directSpliced
  deriving Repr, DecidableEq

/-- Observable result of a handler run. -/
structure OrchResult where
  finalPool : clientPool
  clientWrites : List (List Char)
  clientClosed : Bool
  pendingDels : List Nat
  allocatedRids : List Nat
  outcome : Outcome
  deriving Repr, DecidableEq

/-- The `for _, proxySpec := range gProxyServers` loop (lines 718-788),
carrying the ids allocated so far and the Go local `proxyConn`'s
nil-ness as `assigned`.  `proxyConn` is declared `var proxyConn net.Conn`
(line 675), an interface, while `dial` returns a `*net.TCPConn`
(line 606); the assignment `proxyConn, rid, err = dial(proxySpec)`
(line 719) therefore wraps the returned pointer — nil or not — in a
non-nil interface value.  So `proxyConn == nil` at line 776 holds only
when the loop body never ran (`assigned = false`), and after at least
one attempt an unsuccessful loop always writes the 503 and closes the
client (lines 780-785); on success the two copiers are spawned. -/
def handleProxyLoop (gClientRedirects : Bool) (gMaxConn : Nat) (cid : Nat) :
    List Attempt → clientPool → Bool → List Nat → OrchResult
  | [], cp, assigned, rids =>
    match assigned with
    | false => ⟨cp, [], false, [], rids, .noProxyConn⟩
    | true => ⟨cp, [err503], true, [], rids, .unavailable503⟩
  | a :: rest, cp, _, rids =>
    match dial gMaxConn a.shuffle a.dialRes cp with
    | (_, rid, err, cp2) =>
      if err then
        handleProxyLoop gClientRedirects gMaxConn cid rest cp2 true
          (rids ++ (match a.dialRes with | .parseFail => [] | _ => [rid]))
      else
        match a.statusLine with
        | none => handleProxyLoop gClientRedirects gMaxConn cid rest cp2 true (rids ++ [rid])
        | some status =>
          match classifyStatus status gClientRedirects with
          | .badRequest => ⟨cp2.del cid, [], true, [], rids ++ [rid], .badRequest400⟩
          | .redirect => ⟨cp2.del cid, [status], true, [], rids ++ [rid], .redirectRelay⟩
          | .tryNext => handleProxyLoop gClientRedirects gMaxConn cid rest cp2 true (rids ++ [rid])
          | .success => ⟨cp2, [], false, [cid, rid], rids ++ [rid], .spliced⟩

/-- `handleProxyConnection` entry: `proxyConn` starts as the nil
interface (never assigned), no ids yet. -/
def handleProxyConnection (gClientRedirects : Bool) (gMaxConn : Nat) (cid : Nat)
    (attempts : List Attempt) (cp : clientPool) : OrchResult :=
  handleProxyLoop gClientRedirects gMaxConn cid attempts cp false []

/-- `handleDirectConnection` (lines 637-672): dial the original
destination; on error return leaving `cid` (and a failed dial's id) in
the pool; on success spawn the two copiers tagged `cid` and `rid`. -/
def handleDirectConnection (gMaxConn : Nat) (shuffle : List Nat) (dres : DialRes)
    (cid : Nat) (cp : clientPool) : OrchResult :=
  match dial gMaxConn shuffle dres cp with
  | (_, rid, err, cp2) =>
    if err then
      ⟨cp2, [], false, [],
        (match dres with | .parseFail => [] | _ => [rid]), .directFailed⟩
    else
      ⟨cp2, [], false, [cid, rid], [rid], .directSpliced⟩

/-- Did this attempt end in dial failure, a missing status line, or a
non-relayed non-200 status (the "try next proxy" endings)? -/
def attemptFails (gClientRedirects : Bool) (a : Attempt) : Bool :=
  match a.dialRes, a.statusLine with
  | .parseFail, _ => true
  | .connectFail, _ => true
  | .connectOk, none => true
  | .connectOk, some status =>
    match classifyStatus status gClientRedirects with
    | .tryNext => true
    | _ => false

/-! ## CONNECT request composition (lines 700-739) -/

/-- `authString` (lines 733-736): empty, or the Proxy-Authorization
fragment with the already-encoded Basic token. -/
def authString (cred : Option String) : String :=
  match cred with
  | some val => ("\r\nProxy-Authorization: Basic ") ++ val
  | none => ""

/-- `headerXFF` (lines 700-703): empty, or the X-Forwarded-For line for
the client's host. -/
def headerXFF (clientHost : Option String) : String :=
  match clientHost with
  | some host => ("X-Forwarded-For: ") ++ host ++ ("\r\n")
  | none => ""

/-- `connectString` (line 737): `fmt.Sprintf("CONNECT %s:%d
HTTP/1.0%s\r\n%s\r\n", connectHostname, port, authString, headerXFF)`;
the port is a `uint16`, printed in decimal. -/
def connectString (connectHostname : String) (port : Nat) (auth xff : String) : String :=
  ("CONNECT ") ++ connectHostname ++ (":") ++ Nat.repr (port % 65536) ++
    (" HTTP/1.0") ++ auth ++ ("\r\n") ++ xff ++ ("\r\n")

/-! ## Director (`buildDirectors`/`getDirector`, lines 299-353)

IPv4 addresses are 32-bit naturals.  An `Exact` rule holds a parsed
literal IP and matches by equality (`testIp.Equal(directorIp)`); a
`Cidr` rule holds the parsed network (already masked by `ParseCIDR`) and
prefix length and matches by `directorIpNet.Contains(testIp)`, i.e.
(ip AND mask) == network. -/

/-- A parsed `-d` entry. -/
inductive DirectRule where
  | exact (ip : Nat)
  | cidr (network : Nat) (maskLen : Nat)
  deriving Repr, DecidableEq

/-- `net.CIDRMask(maskLen, 32)` as a 32-bit value. -/
def cidrMask (maskLen : Nat) : Nat := 2 ^ 32 - 2 ^ (32 - maskLen)

/-- The closure `buildDirectors` creates for one rule. -/
def directorFuncOf : DirectRule → Nat → Bool
  | .exact a, ip => ip == a
  | .cidr network maskLen, ip => (ip &&& cidrMask maskLen) == network

/-- `buildDirectors` (lines 299-332). -/
def buildDirectors (rules : List DirectRule) : List (Nat → Bool) :=
  rules.map directorFuncOf

/-- The scan inside the closure returned by `getDirector`
(lines 344-351). -/
def getDirectorLoop : List (Nat → Bool) → Nat → Nat → Bool × Nat
  | [], _, _ => (false, 0)
  | dfunc :: rest, idx, ipaddr =>
    if dfunc ipaddr then (true, idx) else getDirectorLoop rest (idx + 1) ipaddr

/-- `getDirector` (lines 334-353). -/
def getDirector (directors : List (Nat → Bool)) (ipaddr : Nat) : Bool × Nat :=
  getDirectorLoop directors 0 ipaddr

/-! ## Decimal printer (`itod`, lines 825-839) -/

/-- The assemble-in-reverse loop of `itod`: the second argument is the
remaining room in the 32-byte buffer (`bp` slots left). -/
def itodLoop : Nat → Nat → List Char → List Char
  | 0, _, acc => acc
  | _ + 1, 0, acc => acc
  | i + 1, bp + 1, acc => itodLoop ((i + 1) / 10) bp (Char.ofNat ((i + 1) % 10 + 48) :: acc)

/-- `itod(i)` (lines 825-839): `"0"` for zero, else the digits collected
right-to-left in a 32-byte buffer. -/
def itod (i : Nat) : String :=
  if i == 0 then ("0") else String.mk (itodLoop i 32 [])

/-! ## Original-destination decoding (`getOriginalDst`, lines 576-604) -/

/-- The decoding of the 16-byte `SO_ORIGINAL_DST` structure
(lines 597-601): `ipv4` from bytes 4-7 via `itod`, `port` as
`uint16(b[2])<<8 + uint16(b[3])` (uint16 arithmetic wraps mod 2^16). -/
def getOriginalDstDecode (multiaddr : List Nat) : String × Nat :=
  (itod (multiaddr.getD 4 0) ++ (".") ++ itod (multiaddr.getD 5 0) ++ (".") ++
     itod (multiaddr.getD 6 0) ++ (".") ++ itod (multiaddr.getD 7 0),
   ((multiaddr.getD 2 0 % 65536) * 256 % 65536 + multiaddr.getD 3 0 % 65536) % 65536)

/-! ## Reverse-lookup cache (`reverseLookupCache`, lines 89-130) -/

/-- `cacheEntry` (lines 89-92); `expires` in seconds. -/
structure cacheEntry where
  hostname : String
  expires : Nat
  deriving Repr, DecidableEq

/-- `reverseLookupCache` (lines 93-98): the `hostnames` map as an
association list with distinct keys, the 65,536-slot `keys` ring as a
function from slot index, and the `next` insertion index. -/
structure reverseLookupCache where
  hostnames : List (String × cacheEntry)
  keys : Nat → String
  next : Nat

/-- Go map `delete`. -/
def mapErase (k : String) (m : List (String × cacheEntry)) : List (String × cacheEntry) :=
  m.filter (fun e => e.1 != k)

/-- Go map assignment (replaces any existing binding). -/
def mapInsert (k : String) (v : cacheEntry) (m : List (String × cacheEntry)) :
    List (String × cacheEntry) :=
  (k, v) :: mapErase k m

/-- Go map read. -/
def mapFind (k : String) (m : List (String × cacheEntry)) : Option cacheEntry :=
  (m.find? (fun e => e.1 == k)).map Prod.snd

/-- `NewReverseLookupCache` (lines 100-105): empty map, 65,536 empty
strings in the ring, `next = 0`. -/
def NewReverseLookupCache : reverseLookupCache :=
  ⟨[], fun _ => "", 0⟩

/-- `store` (lines 123-130): delete the key in the current slot, write
the new key into the ring, advance `next` by `(next+1) & 65535`, and map
the key to an entry expiring one hour (3600 s) after `now`. -/
def reverseLookupCache.store (c : reverseLookupCache) (now : Nat) (ipv4 hostname : String) :
    reverseLookupCache :=
  ⟨mapInsert ipv4 ⟨hostname, now + 3600⟩ (mapErase (c.keys c.next) c.hostnames),
   Function.update c.keys c.next ipv4,
   (c.next + 1) &&& 65535⟩

/-- `lookup` (lines 106-122): a hit that has not expired returns the
hostname; an expired hit is deleted; a miss returns `""`. -/
def reverseLookupCache.lookup (c : reverseLookupCache) (now : Nat) (ipv4 : String) :
    String × reverseLookupCache :=
  match mapFind ipv4 c.hostnames with
  | some hit =>
    if now < hit.expires then (hit.hostname, c)
    else ("", ⟨mapErase ipv4 c.hostnames, c.keys, c.next⟩)
  | none => ("", c)

/-- An externally observable cache operation. -/
inductive CacheOp where
  | store (now : Nat) (ipv4 hostname : String)
  | lookup (now : Nat) (ipv4 : String)

/-- Run a sequence of cache operations. -/
def execCacheOps (c : reverseLookupCache) : List CacheOp → reverseLookupCache
  | [] => c
  | .store now ip h :: rest => execCacheOps (c.store now ip h) rest
  | .lookup now ip :: rest => execCacheOps ((c.lookup now ip).2) rest

/-- Run a sequence of stores, each a `(now, key, hostname)` triple. -/
def runStores (c : reverseLookupCache) (l : List (Nat × String × String)) :
    reverseLookupCache :=
  l.foldl (fun acc p => acc.store p.1 p.2.1 p.2.2) c

/-- Number of entries in the hostname map. -/
def mapSize (c : reverseLookupCache) : Nat :=
  c.hostnames.length

/-- Invariant maintained by the cache: map keys pairwise distinct (a Go
map), every map key present somewhere in the 65,536-slot ring, and the
insertion index in range. -/
def cacheWF (c : reverseLookupCache) : Prop :=
  (c.hostnames.map Prod.fst).Nodup ∧
  (∀ k ∈ c.hostnames.map Prod.fst, ∃ i, i < 65536 ∧ c.keys i = k) ∧
  c.next < 65536

/-! ## Theorems -/

theorem clientPool.WF_del (c : clientPool) (i : Nat) (h : c.WF) : (c.del i).WF := by
  have hsub : ((c.pool.filter (fun e => e.1 != i)).map Prod.fst).Sublist (c.pool.map Prod.fst) :=
    List.Sublist.map Prod.fst (List.filter_sublist c.pool)
  exact List.Nodup.sublist hsub h

theorem clientPool.WF_add (c : clientPool) (conn : Option Unit) (h : c.WF) :
    (c.add conn).2.WF := by
  unfold clientPool.WF clientPool.keys clientPool.add at *
  simp only [List.map_cons, List.nodup_cons]
  constructor
  · intro hmem
    rcases List.mem_map.mp hmem with ⟨e, he, hfst⟩
    rcases List.mem_filter.mp he with ⟨_, hne⟩
    simp only [bne_iff_ne, ne_eq, decide_eq_true_eq] at hne
    exact hne hfst
  · exact List.Nodup.sublist (List.Sublist.map Prod.fst (List.filter_sublist c.pool)) h

theorem execPoolOps_WF (ops : List PoolOp) :
    ∀ c : clientPool, c.WF → (execPoolOps c ops).WF := by
  induction ops with
  | nil => intro c h; exact h
  | cons op rest ih =>
    intro c h
    cases op with
    | add conn => exact ih _ (clientPool.WF_add c conn h)
    | del id => exact ih _ (clientPool.WF_del c id h)

theorem emptyPool_WF : emptyPool.WF := by
  simp [emptyPool, clientPool.WF, clientPool.keys]

theorem clientPool.keys_del (c : clientPool) (i : Nat) :
    (c.del i).keys = c.keys.filter (fun k => k != i) := by
  unfold clientPool.del clientPool.keys
  induction c.pool with
  | nil => rfl
  | cons e t ih =>
    by_cases he : e.1 = i
    · simp [List.filter_cons, he, ih]
    · simp only [List.filter_cons, List.map_cons]
      have : (e.1 != i) = true := by simp [he]
      simp [this, ih]

theorem clientPool.size_del_mem (c : clientPool) (i : Nat)
    (hwf : c.WF) (hm : i ∈ c.keys) : (c.del i).size = c.size - 1 := by
  have hlen : (c.del i).size = (c.del i).keys.length := by
    simp [clientPool.size, clientPool.keys, clientPool.del]
  have hlen2 : c.size = c.keys.length := by
    simp [clientPool.size, clientPool.keys]
  rw [hlen, hlen2, clientPool.keys_del]
  revert hm hwf
  unfold clientPool.WF
  generalize c.keys = l
  induction l with
  | nil => intro _ h; cases h
  | cons k t ih =>
    intro hwf hm
    rcases List.nodup_cons.mp hwf with ⟨hk, ht⟩
    by_cases hki : k = i
    · subst hki
      have : t.filter (fun x => x != k) = t :=
        List.filter_eq_self.mpr (fun a ha => by
          simp only [bne_iff_ne, ne_eq, decide_eq_true_eq]
          intro hak; exact hk (hak ▸ ha))
      simp [List.filter_cons, this]
    · have hmt : i ∈ t := by
        rcases List.mem_cons.mp hm with h | h
        · exact absurd h.symm hki
        · exact h
      have hcond : (k != i) = true := by simp [hki]
      have hpos : 0 < t.length := List.length_pos.mpr (List.ne_nil_of_mem hmt)
      rw [List.filter_cons, if_pos hcond, List.length_cons, List.length_cons, ih ht hmt]
      omega

theorem clientPool.mem_keys_del (c : clientPool) (i k : Nat)
    (hk : k ∈ c.keys) (hne : k ≠ i) : k ∈ (c.del i).keys := by
  rw [clientPool.keys_del]
  exact List.mem_filter.mpr ⟨hk, by simp [hne]⟩

theorem clientPool.size_delList (ids : List Nat) :
    ∀ c : clientPool, c.WF → ids.Nodup → (∀ k ∈ ids, k ∈ c.keys) →
    (c.delList ids).size = c.size - ids.length ∧ (c.delList ids).WF := by
  induction ids with
  | nil => intro c hwf _ _; exact ⟨rfl, hwf⟩
  | cons i t ih =>
    intro c hwf hnd hmem
    rcases List.nodup_cons.mp hnd with ⟨hit, htnd⟩
    have hstep : c.delList (i :: t) = (c.del i).delList t := rfl
    have hwf' := clientPool.WF_del c i hwf
    have hmem' : ∀ k ∈ t, k ∈ (c.del i).keys := by
      intro k hkt
      exact clientPool.mem_keys_del c i k (hmem k (List.mem_cons_of_mem i hkt))
        (fun h => hit (h ▸ hkt))
    rcases ih (c.del i) hwf' htnd hmem' with ⟨hsz, hwf2⟩
    rw [hstep]
    refine ⟨?_, hwf2⟩
    rw [hsz, clientPool.size_del_mem c i hwf (hmem i (List.mem_cons_self i t))]
    simp only [List.length_cons]
    omega

/-- C2.  After a `gc` following any sequence of `add`/`del` operations:
the pool size is at most `gMaxConn`; if the pre-gc size was at least
`gMaxConn` the post-gc size is exactly `gMaxConn - 512`; and a `gc`
invoked with size below `gMaxConn` leaves the pool unchanged.  `shuffle`
is the result of `rand.Shuffle` on the pool's key list, so it is an
arbitrary permutation of the keys; start-up enforces `gMaxConn ≥ 1024`. -/
theorem claim_C2_gc_bounds (ops : List PoolOp) (gMaxConn : Nat) (shuffle : List Nat)
    (hmax : 1024 ≤ gMaxConn)
    (hperm : shuffle.Perm (execPoolOps emptyPool ops).keys) :
    ((execPoolOps emptyPool ops).gc gMaxConn shuffle).size ≤ gMaxConn ∧
    (gMaxConn ≤ (execPoolOps emptyPool ops).size →
      ((execPoolOps emptyPool ops).gc gMaxConn shuffle).size = gMaxConn - 512) ∧
    ((execPoolOps emptyPool ops).size < gMaxConn →
      (execPoolOps emptyPool ops).gc gMaxConn shuffle = execPoolOps emptyPool ops) := by
  set p := execPoolOps emptyPool ops with hp
  have hwf : p.WF := execPoolOps_WF ops emptyPool emptyPool_WF
  have hkeyslen : p.keys.length = p.size := by
    simp [clientPool.size, clientPool.keys]
  by_cases hlt : p.pool.length < gMaxConn
  · have hgc : p.gc gMaxConn shuffle = p := by
      unfold clientPool.gc
      rw [if_pos hlt]
    have hsz : p.size < gMaxConn := hlt
    refine ⟨?_, fun h => absurd h (by omega), fun _ => hgc⟩
    rw [hgc]
    exact Nat.le_of_lt hsz
  · have hge : gMaxConn ≤ p.size := Nat.le_of_not_lt hlt
    have hgc : p.gc gMaxConn shuffle =
        p.delList (shuffle.take (p.pool.length - (gMaxConn - 512))) := by
      unfold clientPool.gc
      rw [if_neg hlt]
    set d := p.pool.length - (gMaxConn - 512) with hd
    have hshuflen : shuffle.length = p.size := by
      rw [hperm.length_eq, hkeyslen]
    have htake_nd : (shuffle.take d).Nodup :=
      List.Nodup.sublist (List.take_sublist d shuffle) (hperm.nodup_iff.mpr hwf)
    have htake_mem : ∀ k ∈ shuffle.take d, k ∈ p.keys := by
      intro k hk
      exact (hperm.mem_iff).mp (List.mem_of_mem_take hk)
    have htake_len : (shuffle.take d).length = d := by
      rw [List.length_take]
      have : d ≤ shuffle.length := by
        rw [hshuflen]
        simp only [clientPool.size] at *
        omega
      omega
    rcases clientPool.size_delList (shuffle.take d) p hwf htake_nd htake_mem with ⟨hsz, _⟩
    have hfinal : (p.gc gMaxConn shuffle).size = gMaxConn - 512 := by
      rw [hgc, hsz, htake_len]
      simp only [clientPool.size] at *
      omega
    exact ⟨by omega, fun _ => hfinal, fun h => absurd h (by omega)⟩

/-- Witness for C2 at a concrete operation sequence: two adds and a
delete leave one entry, the shuffle is the singleton key list. -/
theorem claim_C2_gc_bounds_witness :
    ((execPoolOps emptyPool [.add (some ()), .add none, .del 1]).gc 1024 [2]).size ≤ 1024 :=
  (claim_C2_gc_bounds [.add (some ()), .add none, .del 1] 1024 [2]
    (by decide) (by decide)).1

/-! ### Pool deregistration helpers -/

theorem any_key_filter_ne_self (l : List (Nat × Option Unit)) (i : Nat) :
    (l.filter (fun e => e.1 != i)).any (fun e => e.1 == i) = false := by
  induction l with
  | nil => rfl
  | cons e t ih =>
    by_cases h : e.1 = i
    · simp [List.filter_cons, h, ih]
    · simp [List.filter_cons, h, ih]

theorem clientPool.hasId_del_self (c : clientPool) (i : Nat) :
    (c.del i).hasId i = false :=
  any_key_filter_ne_self c.pool i

theorem clientPool.hasId_del_false (c : clientPool) (i j : Nat)
    (h : c.hasId i = false) : (c.del j).hasId i = false := by
  unfold clientPool.hasId clientPool.del at *
  rw [List.any_eq_false] at h ⊢
  intro e he
  exact h e (List.mem_of_mem_filter he)

theorem clientPool.hasId_delList_false (ids : List Nat) :
    ∀ (c : clientPool) (i : Nat), c.hasId i = false → (c.delList ids).hasId i = false := by
  induction ids with
  | nil => intro c i h; exact h
  | cons j t ih =>
    intro c i h
    exact ih (c.del j) i (clientPool.hasId_del_false c i j h)

theorem clientPool.hasId_delList_of_mem (ids : List Nat) :
    ∀ (c : clientPool) (i : Nat), i ∈ ids → (c.delList ids).hasId i = false := by
  induction ids with
  | nil => intro c i h; cases h
  | cons j t ih =>
    intro c i h
    rcases List.mem_cons.mp h with hij | hit
    · subst hij
      exact clientPool.hasId_delList_false t (c.del i) i (clientPool.hasId_del_self c i)
    · exact ih (c.del j) i hit

/-! ### The spliced case deregisters both its ids -/

theorem handleProxyLoop_spliced_pendingDels (red : Bool) (mx cid : Nat)
    (attempts : List Attempt) :
    ∀ (cp : clientPool) (assigned : Bool) (rids : List Nat),
    (handleProxyLoop red mx cid attempts cp assigned rids).outcome = .spliced →
    ∃ r, (handleProxyLoop red mx cid attempts cp assigned rids).pendingDels = [cid, r] := by
  induction attempts with
  | nil =>
    intro cp assigned rids h
    cases assigned <;> simp [handleProxyLoop] at h
  | cons a rest ih =>
    intro cp assigned rids h
    obtain ⟨dres, sh, st⟩ := a
    cases dres with
    | parseFail => exact ih _ _ _ h
    | connectFail => exact ih _ _ _ h
    | connectOk =>
      cases st with
      | none => exact ih _ _ _ h
      | some status =>
        cases hc : classifyStatus status red with
        | badRequest => simp [handleProxyLoop, dial, hc] at h
        | redirect => simp [handleProxyLoop, dial, hc] at h
        | tryNext =>
          simp only [handleProxyLoop, dial, hc] at h ⊢
          exact ih _ _ _ h
        | success =>
          simp only [handleProxyLoop, dial, hc]
          exact ⟨_, rfl⟩

/-- C1, counterexample.  Client id 1 is in the pool; the first upstream's
TCP connect fails (its nil conn gets pool id 2), the second succeeds with
a 200.  After the orchestrator returns and both spawned copiers run their
deletions (`pendingDels`), id 2 — allocated for an upstream dialled on
behalf of this connection — is still in the pool, refuting the claim. -/
theorem claim_C1_counterexample :
    (let r := handleProxyConnection false 4096 1
        [⟨.connectFail, [], none⟩,
         ⟨.connectOk, [], some (("HTTP/1.0 200 Connection established\r\n").toList)⟩]
        ⟨[(1, some ())], 1⟩
     2 ∈ r.allocatedRids ∧ (r.finalPool.delList r.pendingDels).hasId 2 = true) := by
  decide

/-! ### Which ids survive the handler (C1) -/

theorem clientPool.hasId_del_ne (c : clientPool) (i j : Nat) (h : i ≠ j) :
    (c.del j).hasId i = c.hasId i := by
  unfold clientPool.del clientPool.hasId
  induction c.pool with
  | nil => rfl
  | cons e t ih =>
    by_cases he : e.1 = j
    · have h1 : (e.1 != j) = false := by simp [he]
      have h2 : (e.1 == i) = false := by
        simp only [beq_eq_false_iff_ne, ne_eq, he]
        exact fun hji => h hji.symm
      simp [List.filter_cons, h1, List.any_cons, h2, ih]
    · have h1 : (e.1 != j) = true := by simp [he]
      simp [List.filter_cons, h1, List.any_cons, ih]

theorem clientPool.hasId_delList_not_mem (l : List Nat) :
    ∀ (c : clientPool) (i : Nat), i ∉ l → (c.delList l).hasId i = c.hasId i := by
  induction l with
  | nil => intro c i _; rfl
  | cons j t ih =>
    intro c i hi
    have h1 : i ≠ j := fun he => hi (he ▸ List.mem_cons_self j t)
    have h2 : i ∉ t := fun ht => hi (List.mem_cons_of_mem j ht)
    show ((c.del j).delList t).hasId i = _
    rw [ih (c.del j) i h2, clientPool.hasId_del_ne c i j h1]

theorem clientPool.gc_noop (c : clientPool) (mx : Nat) (sh : List Nat)
    (h : c.size < mx) : c.gc mx sh = c := by
  unfold clientPool.gc
  rw [if_pos (show c.pool.length < mx from h)]

/-- When every pool key is at most the counter (which `add` maintains)
and the counter cannot wrap, `add` allocates `idCounter + 1` and conses
the new entry onto the unchanged pool. -/
theorem clientPool.add_env (cp : clientPool) (conn : Option Unit)
    (hfresh : ∀ k ∈ cp.keys, k ≤ cp.idCounter)
    (hlt : cp.idCounter + 1 < 2 ^ 64) :
    (cp.add conn).1 = cp.idCounter + 1 ∧
    (cp.add conn).2.idCounter = cp.idCounter + 1 ∧
    (cp.add conn).2.pool = (cp.idCounter + 1, conn) :: cp.pool := by
  have hid : (cp.idCounter + 1) % 2 ^ 64 = cp.idCounter + 1 := Nat.mod_eq_of_lt hlt
  have hfilter : cp.pool.filter (fun e => e.1 != (cp.idCounter + 1) % 2 ^ 64) = cp.pool := by
    apply List.filter_eq_self.mpr
    intro e he
    have hk : e.1 ≤ cp.idCounter := hfresh e.1 (List.mem_map_of_mem Prod.fst he)
    rw [hid]
    simp only [bne_iff_ne, ne_eq, decide_eq_true_eq]
    omega
  refine ⟨hid, hid, ?_⟩
  show ((cp.idCounter + 1) % 2 ^ 64, conn) ::
      cp.pool.filter (fun e => e.1 != (cp.idCounter + 1) % 2 ^ 64) =
    (cp.idCounter + 1, conn) :: cp.pool
  rw [hfilter, hid]

/-- Transfer of the loop's freshness/size/no-wrap environment across one
`add`, together with survival of all previously allocated ids. -/
theorem add_env_transfer (cp : clientPool) (conn : Option Unit) (restLen : Nat)
    (mx cid : Nat) (rids : List Nat)
    (H1 : ∀ k ∈ cp.keys, k ≤ cp.idCounter)
    (H2 : cp.size + (restLen + 1) ≤ mx)
    (H3 : cp.idCounter + (restLen + 1) < 2 ^ 64)
    (H4 : cid ≤ cp.idCounter)
    (H5 : ∀ i ∈ rids, cp.hasId i = true ∧ cid < i) :
    (∀ k ∈ (cp.add conn).2.keys, k ≤ (cp.add conn).2.idCounter) ∧
    (cp.add conn).2.size + restLen ≤ mx ∧
    (cp.add conn).2.idCounter + restLen < 2 ^ 64 ∧
    cid ≤ (cp.add conn).2.idCounter ∧
    (∀ i ∈ rids ++ [(cp.add conn).1], (cp.add conn).2.hasId i = true ∧ cid < i) ∧
    (cp.add conn).2.hasId cid = cp.hasId cid := by
  have hlt : cp.idCounter + 1 < 2 ^ 64 := by omega
  obtain ⟨hid, hcnt, hpool⟩ := clientPool.add_env cp conn H1 hlt
  have hkeys : (cp.add conn).2.keys = (cp.idCounter + 1) :: cp.keys := by
    show (cp.add conn).2.pool.map Prod.fst = _
    rw [hpool, List.map_cons]
    rfl
  have hsz : (cp.add conn).2.size = cp.size + 1 := by
    show (cp.add conn).2.pool.length = cp.pool.length + 1
    rw [hpool, List.length_cons]
  refine ⟨?_, by omega, by omega, by omega, ?_, ?_⟩
  · intro k hk
    rw [hkeys] at hk
    rw [hcnt]
    rcases List.mem_cons.mp hk with h | h
    · omega
    · have := H1 k h
      omega
  · intro i hi
    rcases List.mem_append.mp hi with h | h
    · refine ⟨?_, (H5 i h).2⟩
      have h1 := (H5 i h).1
      unfold clientPool.hasId at h1 ⊢
      rw [hpool, List.any_cons, h1, Bool.or_true]
    · have h2 : i = cp.idCounter + 1 := by
        rw [hid] at h
        simpa using h
      subst h2
      refine ⟨?_, by omega⟩
      unfold clientPool.hasId
      rw [hpool, List.any_cons]
      simp
  · unfold clientPool.hasId
    rw [hpool, List.any_cons]
    have hne : (cp.idCounter + 1 == cid) = false := by
      simp only [beq_eq_false_iff_ne, ne_eq]
      omega
    rw [hne, Bool.false_or]

/-- Which ids are in the pool when the handler and its spawned copiers
are done: under no gc pressure (`cp.size + attempts ≤ gMaxConn`), no
counter wrap, and a client id no larger than the counter, every id the
run allocates that is not a splice tag is still in the pool after the
pending deletions run; and on the silent / 503 endings nothing is
deleted at all, so the client id's membership is untouched. -/
theorem handleProxyLoop_pool_tracking (red : Bool) (mx cid : Nat)
    (attempts : List Attempt) :
    ∀ (cp : clientPool) (assigned : Bool) (rids : List Nat),
    (∀ k ∈ cp.keys, k ≤ cp.idCounter) →
    cp.size + attempts.length ≤ mx →
    cp.idCounter + attempts.length < 2 ^ 64 →
    cid ≤ cp.idCounter →
    (∀ i ∈ rids, cp.hasId i = true ∧ cid < i) →
    ((∀ i ∈ (handleProxyLoop red mx cid attempts cp assigned rids).allocatedRids,
        i ∉ (handleProxyLoop red mx cid attempts cp assigned rids).pendingDels →
        ((handleProxyLoop red mx cid attempts cp assigned rids).finalPool.delList
          (handleProxyLoop red mx cid attempts cp assigned rids).pendingDels).hasId i = true) ∧
     (((handleProxyLoop red mx cid attempts cp assigned rids).outcome = .noProxyConn ∨
       (handleProxyLoop red mx cid attempts cp assigned rids).outcome = .unavailable503) →
      (handleProxyLoop red mx cid attempts cp assigned rids).pendingDels = [] ∧
      (handleProxyLoop red mx cid attempts cp assigned rids).finalPool.hasId cid =
        cp.hasId cid)) := by
  induction attempts with
  | nil =>
    intro cp assigned rids _ _ _ _ H5
    cases assigned with
    | false =>
      refine ⟨?_, fun _ => ⟨rfl, rfl⟩⟩
      intro i hi _
      exact (H5 i hi).1
    | true =>
      refine ⟨?_, fun _ => ⟨rfl, rfl⟩⟩
      intro i hi _
      exact (H5 i hi).1
  | cons a rest ih =>
    intro cp assigned rids H1 H2 H3 H4 H5
    simp only [List.length_cons] at H2 H3
    have hszlt : cp.size < mx := by omega
    obtain ⟨dres, sh, st⟩ := a
    have hgc : cp.gc mx sh = cp := clientPool.gc_noop cp mx sh hszlt
    cases dres with
    | parseFail =>
      have hstep : handleProxyLoop red mx cid (⟨.parseFail, sh, st⟩ :: rest) cp assigned rids =
          handleProxyLoop red mx cid rest cp true (rids ++ []) := rfl
      rw [hstep]
      refine ih cp true (rids ++ []) H1 (by omega) (by omega) H4 ?_
      intro i hi
      rw [List.append_nil] at hi
      exact H5 i hi
    | connectFail =>
      have hstep : handleProxyLoop red mx cid (⟨.connectFail, sh, st⟩ :: rest) cp assigned rids =
          handleProxyLoop red mx cid rest ((cp.gc mx sh).add none).2 true
            (rids ++ [((cp.gc mx sh).add none).1]) := rfl
      rw [hstep, hgc]
      obtain ⟨K1, K2, K3, K4, K5, K6⟩ :=
        add_env_transfer cp none rest.length mx cid rids H1 H2 H3 H4 H5
      have hrec := ih (cp.add none).2 true (rids ++ [(cp.add none).1]) K1 K2 K3 K4 K5
      refine ⟨hrec.1, ?_⟩
      intro hout
      obtain ⟨hd, hp⟩ := hrec.2 hout
      exact ⟨hd, by rw [hp, K6]⟩
    | connectOk =>
      obtain ⟨K1, K2, K3, K4, K5, K6⟩ :=
        add_env_transfer cp (some ()) rest.length mx cid rids H1 H2 H3 H4 H5
      cases st with
      | none =>
        have hstep : handleProxyLoop red mx cid (⟨.connectOk, sh, none⟩ :: rest) cp assigned rids =
            handleProxyLoop red mx cid rest ((cp.gc mx sh).add (some ())).2 true
              (rids ++ [((cp.gc mx sh).add (some ())).1]) := rfl
        rw [hstep, hgc]
        have hrec := ih (cp.add (some ())).2 true
          (rids ++ [(cp.add (some ())).1]) K1 K2 K3 K4 K5
        refine ⟨hrec.1, ?_⟩
        intro hout
        obtain ⟨hd, hp⟩ := hrec.2 hout
        exact ⟨hd, by rw [hp, K6]⟩
      | some status =>
        cases hc : classifyStatus status red with
        | badRequest =>
          have hstep : handleProxyLoop red mx cid
              (⟨.connectOk, sh, some status⟩ :: rest) cp assigned rids =
              ⟨(((cp.gc mx sh).add (some ())).2).del cid, [], true, [],
                rids ++ [((cp.gc mx sh).add (some ())).1], .badRequest400⟩ := by
            simp only [handleProxyLoop, dial, hc]
            rfl
          rw [hstep, hgc]
          refine ⟨?_, ?_⟩
          · intro i hi _
            have hK := K5 i hi
            show ((cp.add (some ())).2.del cid).hasId i = true
            rw [clientPool.hasId_del_ne _ i cid (by omega)]
            exact hK.1
          · intro hout
            rcases hout with h | h <;> exact Outcome.noConfusion h
        | redirect =>
          have hstep : handleProxyLoop red mx cid
              (⟨.connectOk, sh, some status⟩ :: rest) cp assigned rids =
              ⟨(((cp.gc mx sh).add (some ())).2).del cid, [status], true, [],
                rids ++ [((cp.gc mx sh).add (some ())).1], .redirectRelay⟩ := by
            simp only [handleProxyLoop, dial, hc]
            rfl
          rw [hstep, hgc]
          refine ⟨?_, ?_⟩
          · intro i hi _
            have hK := K5 i hi
            show ((cp.add (some ())).2.del cid).hasId i = true
            rw [clientPool.hasId_del_ne _ i cid (by omega)]
            exact hK.1
          · intro hout
            rcases hout with h | h <;> exact Outcome.noConfusion h
        | tryNext =>
          have hstep : handleProxyLoop red mx cid
              (⟨.connectOk, sh, some status⟩ :: rest) cp assigned rids =
              handleProxyLoop red mx cid rest ((cp.gc mx sh).add (some ())).2 true
                (rids ++ [((cp.gc mx sh).add (some ())).1]) := by
            simp only [handleProxyLoop, dial, hc]
            rfl
          rw [hstep, hgc]
          have hrec := ih (cp.add (some ())).2 true
            (rids ++ [(cp.add (some ())).1]) K1 K2 K3 K4 K5
          refine ⟨hrec.1, ?_⟩
          intro hout
          obtain ⟨hd, hp⟩ := hrec.2 hout
          exact ⟨hd, by rw [hp, K6]⟩
        | success =>
          have hstep : handleProxyLoop red mx cid
              (⟨.connectOk, sh, some status⟩ :: rest) cp assigned rids =
              ⟨((cp.gc mx sh).add (some ())).2, [], false,
                [cid, ((cp.gc mx sh).add (some ())).1],
                rids ++ [((cp.gc mx sh).add (some ())).1], .spliced⟩ := by
            simp only [handleProxyLoop, dial, hc]
            rfl
          rw [hstep, hgc]
          refine ⟨?_, ?_⟩
          · intro i hi hnot
            have hK := K5 i hi
            show ((cp.add (some ())).2.delList [cid, (cp.add (some ())).1]).hasId i = true
            rw [clientPool.hasId_delList_not_mem [cid, (cp.add (some ())).1] _ i hnot]
            exact hK.1
          · intro hout
            rcases hout with h | h <;> exact Outcome.noConfusion h

/-- C1, amended.  Side conditions: the pool's keys come from its counter,
the run fits under the gc ceiling, the counter cannot wrap, and the
client id is no fresher than the counter (all true of real runs).  Then,
after the handler and its two spawned copiers complete: (i) in the
spliced case the client id is among the pending deletions and every
splice tag (the client id and the successful upstream's id) is out of
the pool; (ii) every id allocated for an upstream dialled on behalf of
this connection that is not a splice tag — ids from dials whose TCP
connect failed and from upstreams abandoned after a failed or non-200
handshake — is still in the pool; (iii) when the handler ends by writing
the 503, the client id itself is still in the pool. -/
theorem claim_C1_amended (red : Bool) (mx cid : Nat) (attempts : List Attempt)
    (cp : clientPool)
    (hfresh : ∀ k ∈ cp.keys, k ≤ cp.idCounter)
    (hroom : cp.size + attempts.length ≤ mx)
    (hwrap : cp.idCounter + attempts.length < 2 ^ 64)
    (hcid : cid ≤ cp.idCounter) :
    ((handleProxyConnection red mx cid attempts cp).outcome = .spliced →
      cid ∈ (handleProxyConnection red mx cid attempts cp).pendingDels ∧
      ∀ i ∈ (handleProxyConnection red mx cid attempts cp).pendingDels,
        ((handleProxyConnection red mx cid attempts cp).finalPool.delList
          (handleProxyConnection red mx cid attempts cp).pendingDels).hasId i = false) ∧
    (∀ i ∈ (handleProxyConnection red mx cid attempts cp).allocatedRids,
      i ∉ (handleProxyConnection red mx cid attempts cp).pendingDels →
      ((handleProxyConnection red mx cid attempts cp).finalPool.delList
        (handleProxyConnection red mx cid attempts cp).pendingDels).hasId i = true) ∧
    ((handleProxyConnection red mx cid attempts cp).outcome = .unavailable503 →
      cp.hasId cid = true →
      ((handleProxyConnection red mx cid attempts cp).finalPool.delList
        (handleProxyConnection red mx cid attempts cp).pendingDels).hasId cid = true) := by
  rw [show handleProxyConnection red mx cid attempts cp =
    handleProxyLoop red mx cid attempts cp false [] from rfl]
  have htrack := handleProxyLoop_pool_tracking red mx cid attempts cp false []
    hfresh hroom hwrap hcid (fun i hi => absurd hi (List.not_mem_nil i))
  refine ⟨?_, htrack.1, ?_⟩
  · intro h
    constructor
    · rcases handleProxyLoop_spliced_pendingDels red mx cid attempts cp false [] h with ⟨r, hr⟩
      rw [hr]
      exact List.mem_cons_self _ _
    · intro i hi
      exact clientPool.hasId_delList_of_mem _ _ i hi
  · intro hout hhas
    obtain ⟨hdels, hpool⟩ := htrack.2 (Or.inr hout)
    rw [hdels]
    show (handleProxyLoop red mx cid attempts cp false []).finalPool.hasId cid = true
    rw [hpool]
    exact hhas

/-- Witness for the amended C1 at the counterexample's run: the failed
dial's id 2 is still in the pool after the copiers' deletions. -/
theorem claim_C1_amended_witness :
    ((handleProxyConnection false 4096 1
        [⟨.connectFail, [], none⟩,
         ⟨.connectOk, [], some (("HTTP/1.0 200 Connection established\r\n").toList)⟩]
        ⟨[(1, some ())], 1⟩).finalPool.delList
      (handleProxyConnection false 4096 1
        [⟨.connectFail, [], none⟩,
         ⟨.connectOk, [], some (("HTTP/1.0 200 Connection established\r\n").toList)⟩]
        ⟨[(1, some ())], 1⟩).pendingDels).hasId 2 = true :=
  (claim_C1_amended false 4096 1
    [⟨.connectFail, [], none⟩,
     ⟨.connectOk, [], some (("HTTP/1.0 200 Connection established\r\n").toList)⟩]
    ⟨[(1, some ())], 1⟩ (by decide) (by decide) (by decide) (by decide)).2.1 2
    (by decide) (by decide)

/-! ### Exhausting the upstreams yields the 503 (C4) -/

theorem handleProxyLoop_all_fail (red : Bool) (mx cid : Nat) (attempts : List Attempt) :
    ∀ (cp : clientPool) (assigned : Bool) (rids : List Nat),
    (∀ a ∈ attempts, attemptFails red a = true) →
    (assigned = true ∨ attempts ≠ []) →
    (handleProxyLoop red mx cid attempts cp assigned rids).clientWrites = [err503] ∧
    (handleProxyLoop red mx cid attempts cp assigned rids).clientClosed = true ∧
    (handleProxyLoop red mx cid attempts cp assigned rids).outcome = .unavailable503 := by
  induction attempts with
  | nil =>
    intro cp assigned rids _ hcase
    rcases hcase with h | h
    · subst h
      exact ⟨rfl, rfl, rfl⟩
    · exact absurd rfl h
  | cons a rest ih =>
    intro cp assigned rids hall _
    have hfa : attemptFails red a = true := hall a (List.mem_cons_self a rest)
    have hrest : ∀ b ∈ rest, attemptFails red b = true :=
      fun b hb => hall b (List.mem_cons_of_mem a hb)
    obtain ⟨dres, sh, st⟩ := a
    cases dres with
    | parseFail => exact ih _ _ _ hrest (Or.inl rfl)
    | connectFail => exact ih _ _ _ hrest (Or.inl rfl)
    | connectOk =>
      cases st with
      | none => exact ih _ _ _ hrest (Or.inl rfl)
      | some status =>
        cases hc : classifyStatus status red with
        | badRequest => simp [attemptFails, hc] at hfa
        | redirect => simp [attemptFails, hc] at hfa
        | success => simp [attemptFails, hc] at hfa
        | tryNext =>
          have hstep : handleProxyLoop red mx cid
              (⟨.connectOk, sh, some status⟩ :: rest) cp assigned rids =
              handleProxyLoop red mx cid rest ((cp.gc mx sh).add (some ())).2 true
                (rids ++ [((cp.gc mx sh).add (some ())).1]) := by
            simp only [handleProxyLoop, dial, hc]
            rfl
          rw [hstep]
          exact ih _ _ _ hrest (Or.inl rfl)

/-- C4.  When the loop attempted at least one upstream and every attempt
ended in dial failure, a missing status line, or a non-relayed non-200
status, the proxy writes to the client exactly the 503 bytes of line 782
and closes the client connection.  (`proxyConn` is a `net.Conn`
interface wrapping the `*net.TCPConn` `dial` returns, so after any loop
iteration it is non-nil — even when the dial failed — and the line 776
nil-check cannot suppress the 503.) -/
theorem claim_C4_unavailable503 (red : Bool) (mx cid : Nat) (attempts : List Attempt)
    (cp : clientPool) (hne : attempts ≠ [])
    (hfail : ∀ a ∈ attempts, attemptFails red a = true) :
    (handleProxyConnection red mx cid attempts cp).clientWrites = [err503] ∧
    (handleProxyConnection red mx cid attempts cp).clientClosed = true ∧
    (handleProxyConnection red mx cid attempts cp).outcome = .unavailable503 :=
  handleProxyLoop_all_fail red mx cid attempts cp false [] hfail (Or.inr hne)

/-- Witness for C4: two upstreams, the first connected and answering
502, the second's dial failing; the 503 is still written. -/
theorem claim_C4_unavailable503_witness :
    (handleProxyConnection false 4096 1
      [⟨.connectOk, [], some (("HTTP/1.0 502 Bad Gateway\r\n").toList)⟩,
       ⟨.connectFail, [], none⟩]
      ⟨[(1, some ())], 1⟩).clientWrites = [err503] :=
  (claim_C4_unavailable503 false 4096 1
    [⟨.connectOk, [], some (("HTTP/1.0 502 Bad Gateway\r\n").toList)⟩,
     ⟨.connectFail, [], none⟩]
    ⟨[(1, some ())], 1⟩ (by decide) (by decide)).1

/-! ### Redirect classification (C3) -/

/-- C3.  For a status line on which the 400 check did not match, the
single-attempt handshake relays the status line to the client (writes it
and ends in the relay state) iff the line contains `"301"`, or contains
`"302"` with the client-redirects toggle enabled; and a line containing
`"301"` classifies as a relayed redirect even with the toggle disabled
(`&&` binds tighter than `||` on line 758). -/
theorem claim_C3_redirect_relay (status : List Char) (red : Bool) (mx cid : Nat)
    (sh : List Nat) (cp : clientPool)
    (h400 : containsSubstr status (("400").toList) = false) :
    ((handleProxyConnection red mx cid [⟨.connectOk, sh, some status⟩] cp).outcome =
        .redirectRelay ∧
     (handleProxyConnection red mx cid [⟨.connectOk, sh, some status⟩] cp).clientWrites =
        [status] ↔
      (containsSubstr status (("301").toList) = true ∨
       (containsSubstr status (("302").toList) = true ∧ red = true))) ∧
    (containsSubstr status (("301").toList) = true →
      classifyStatus status false = .redirect) := by
  constructor
  · cases red <;>
    cases h301 : containsSubstr status (("301").toList) <;>
    cases h302 : containsSubstr status (("302").toList) <;>
    cases h200 : containsSubstr status (("200").toList) <;>
    simp only [handleProxyConnection, handleProxyLoop, dial, classifyStatus,
      h400, h301, h302, h200] <;>
    simp
  · intro h301
    simp only [classifyStatus, h400, h301]
    simp

/-- Witness for C3: a `301` status line is relayed with the
client-redirects toggle disabled. -/
theorem claim_C3_redirect_relay_witness :
    (handleProxyConnection false 4096 1
      [⟨.connectOk, [], some (("HTTP/1.0 301 Moved Permanently\r\n").toList)⟩]
      emptyPool).outcome = .redirectRelay :=
  (((claim_C3_redirect_relay (("HTTP/1.0 301 Moved Permanently\r\n").toList)
      false 4096 1 [] emptyPool (by decide)).1).mpr (Or.inl (by decide))).1

/-! ### The dialer registers ids only past the parse stage (C9) -/

theorem clientPool.delList_idCounter (ids : List Nat) :
    ∀ c : clientPool, (c.delList ids).idCounter = c.idCounter := by
  induction ids with
  | nil => intro c; rfl
  | cons j t ih => intro c; exact ih (c.del j)

theorem clientPool.gc_idCounter (c : clientPool) (mx : Nat) (sh : List Nat) :
    (c.gc mx sh).idCounter = c.idCounter := by
  unfold clientPool.gc
  by_cases h : c.pool.length < mx
  · rw [if_pos h]
  · rw [if_neg h]; exact clientPool.delList_idCounter _ c

/-- C9, counterexample.  A `dial` whose `host:port` spec fails to parse
(or resolve) returns `(nil, 0, err)` through one of the early returns of
lines 607-621 and leaves the pool untouched: no pool entry exists for
this dial attempt, refuting "every call to dial adds an entry". -/
theorem claim_C9_counterexample :
    dial 4096 [] .parseFail emptyPool = (none, 0, true, emptyPool) ∧
    (dial 4096 [] .parseFail emptyPool).2.2.2.size = 0 :=
  ⟨rfl, rfl⟩

/-- C9, amended: a dial that reaches the TCP connect stage always adds a
pool entry and returns its id — on connect failure the id maps to the nil
connection and is returned alongside the error — while a dial failing at
parse/resolve/port-conversion returns id 0 with the pool unchanged. -/
theorem claim_C9_dial_registration (mx : Nat) (sh : List Nat) (cp : clientPool) :
    dial mx sh .parseFail cp = (none, 0, true, cp) ∧
    (dial mx sh .connectFail cp).1 = none ∧
    (dial mx sh .connectFail cp).2.2.1 = true ∧
    (dial mx sh .connectFail cp).2.1 = (cp.idCounter + 1) % 2 ^ 64 ∧
    (dial mx sh .connectFail cp).2.2.2.lookupConn ((dial mx sh .connectFail cp).2.1) =
      some none ∧
    (dial mx sh .connectFail cp).2.2.2.hasId ((dial mx sh .connectFail cp).2.1) = true ∧
    (dial mx sh .connectOk cp).1 = some () ∧
    (dial mx sh .connectOk cp).2.2.1 = false ∧
    (dial mx sh .connectOk cp).2.1 = (cp.idCounter + 1) % 2 ^ 64 ∧
    (dial mx sh .connectOk cp).2.2.2.lookupConn ((dial mx sh .connectOk cp).2.1) =
      some (some ()) ∧
    (dial mx sh .connectOk cp).2.2.2.hasId ((dial mx sh .connectOk cp).2.1) = true := by
  refine ⟨rfl, rfl, rfl, ?_, ?_, ?_, rfl, rfl, ?_, ?_, ?_⟩
  · show ((cp.gc mx sh).idCounter + 1) % 2 ^ 64 = (cp.idCounter + 1) % 2 ^ 64
    rw [clientPool.gc_idCounter]
  · simp [dial, clientPool.add, clientPool.lookupConn, List.find?]
  · simp [dial, clientPool.add, clientPool.hasId]
  · show ((cp.gc mx sh).idCounter + 1) % 2 ^ 64 = (cp.idCounter + 1) % 2 ^ 64
    rw [clientPool.gc_idCounter]
  · simp [dial, clientPool.add, clientPool.lookupConn, List.find?]
  · simp [dial, clientPool.add, clientPool.hasId]

/-! ### CONNECT request bytes (C5) -/

/-- C5.  The request written to the upstream (line 739) is exactly
`"CONNECT " + H + ":" + P + " HTTP/1.0" + auth + "\r\n" + xff + "\r\n"`,
where `auth` is empty or `"\r\nProxy-Authorization: Basic <token>"` and
`xff` is empty or `"X-Forwarded-For: <client_ip>\r\n"`; with empty auth
and empty xff this is exactly `"CONNECT H:P HTTP/1.0\r\n\r\n"`. -/
theorem claim_C5_connect_request (connectHostname : String) (port : Nat)
    (tok clientIp : Option String) (hport : port < 65536) :
    connectString connectHostname port (authString tok) (headerXFF clientIp) =
      ("CONNECT ") ++ connectHostname ++ (":") ++ Nat.repr port ++ (" HTTP/1.0") ++
        authString tok ++ ("\r\n") ++ headerXFF clientIp ++ ("\r\n") ∧
    (∀ v : String, authString (some v) = ("\r\nProxy-Authorization: Basic ") ++ v) ∧
    authString none = "" ∧
    (∀ iphost : String, headerXFF (some iphost) = ("X-Forwarded-For: ") ++ iphost ++ ("\r\n")) ∧
    headerXFF none = "" ∧
    connectString connectHostname port (authString none) (headerXFF none) =
      ("CONNECT ") ++ connectHostname ++ (":") ++ Nat.repr port ++ (" HTTP/1.0\r\n\r\n") := by
  refine ⟨?_, fun v => rfl, rfl, fun iphost => rfl, rfl, ?_⟩
  · unfold connectString
    rw [Nat.mod_eq_of_lt hport]
  · unfold connectString authString headerXFF
    rw [Nat.mod_eq_of_lt hport]
    apply String.ext
    simp

/-- Witness for C5 at the spec's concrete scenario. -/
theorem claim_C5_connect_request_witness :
    connectString ("93.184.216.34") 443 (authString none)
      (headerXFF (some ("198.51.100.7"))) =
      ("CONNECT 93.184.216.34:443 HTTP/1.0\r\nX-Forwarded-For: 198.51.100.7\r\n\r\n") := by
  have h := (claim_C5_connect_request ("93.184.216.34") 443 none
    (some ("198.51.100.7")) (by decide)).1
  rw [h]
  rfl

/-! ### Director first-match scan (C6) -/

theorem getDirectorLoop_map_spec (rules : List DirectRule) :
    ∀ (k ip : Nat),
    getDirectorLoop (rules.map directorFuncOf) k ip =
      (match List.findIdx? (fun r => directorFuncOf r ip) rules k with
       | some i => (true, i)
       | none => (false, 0)) := by
  induction rules with
  | nil => intro k ip; rfl
  | cons r rs ih =>
    intro k ip
    by_cases h : directorFuncOf r ip
    · simp [getDirectorLoop, h, List.findIdx?_cons]
    · simp only [List.map_cons, getDirectorLoop, List.findIdx?_cons]
      simp only [h, if_false, Bool.false_eq_true, ite_false]
      exact ih (k + 1) ip

/-- C6.  The director performs a linear scan in configuration order and
returns `(true, i)` with `i` the index of the first matching rule
(`Exact` equality or `Cidr` mask containment), or `(false, 0)` when no
rule matches; evaluation is pure, so repeated evaluation on the same IP
yields the same result. -/
theorem claim_C6_director_first_match (rules : List DirectRule) (ip : Nat) :
    getDirector (buildDirectors rules) ip =
      (match List.findIdx? (fun r => directorFuncOf r ip) rules with
       | some i => (true, i)
       | none => (false, 0)) ∧
    getDirector (buildDirectors rules) ip = getDirector (buildDirectors rules) ip := by
  exact ⟨getDirectorLoop_map_spec rules 0 ip, rfl⟩

/-! ### `itod` is the standard decimal printer (C10, and the ipv4
rendering of C7) -/

theorem digitChar_eq_ofNat (m : Nat) (h : m < 10) :
    Nat.digitChar m = Char.ofNat (m + 48) := by
  interval_cases m <;> rfl

theorem itodLoop_append (bp : Nat) :
    ∀ (i : Nat) (acc : List Char), itodLoop i bp acc = itodLoop i bp [] ++ acc := by
  induction bp with
  | zero => intro i acc; cases i <;> rfl
  | succ b ih =>
    intro i acc
    cases i with
    | zero => rfl
    | succ k =>
      simp only [itodLoop]
      rw [ih ((k + 1) / 10) (Char.ofNat ((k + 1) % 10 + 48) :: acc),
        ih ((k + 1) / 10) [Char.ofNat ((k + 1) % 10 + 48)]]
      simp

theorem itodLoop_zero (bp : Nat) (acc : List Char) : itodLoop 0 bp acc = acc := by
  cases bp <;> rfl

theorem itodLoop_eq_toDigitsCore (bp : Nat) :
    ∀ (i fuel : Nat) (acc : List Char), i ≠ 0 → i < 10 ^ bp → i ≤ fuel →
    Nat.toDigitsCore 10 fuel i acc = itodLoop i bp acc := by
  induction bp with
  | zero =>
    intro i fuel acc h0 hlt _
    simp at hlt
    omega
  | succ b ih =>
    intro i fuel acc h0 hlt hfuel
    obtain ⟨k, rfl⟩ : ∃ k, i = k + 1 := ⟨i - 1, by omega⟩
    obtain ⟨f, rfl⟩ : ∃ f, fuel = f + 1 := ⟨fuel - 1, by omega⟩
    have hch : Nat.digitChar ((k + 1) % 10) = Char.ofNat ((k + 1) % 10 + 48) :=
      digitChar_eq_ofNat _ (by omega)
    simp only [Nat.toDigitsCore, itodLoop, hch]
    by_cases hdiv : (k + 1) / 10 = 0
    · rw [if_pos hdiv, hdiv, itodLoop_zero]
    · rw [if_neg hdiv]
      have hblt : (k + 1) / 10 < 10 ^ b := by
        rw [Nat.div_lt_iff_lt_mul (by norm_num)]
        calc k + 1 < 10 ^ (b + 1) := hlt
        _ = 10 ^ b * 10 := by rw [pow_succ]
      have hf : (k + 1) / 10 ≤ f := by omega
      exact ih ((k + 1) / 10) f _ hdiv hblt hf

theorem itod_eq_repr (i : Nat) (h : i < 10 ^ 32) : itod i = Nat.repr i := by
  unfold itod
  by_cases h0 : i = 0
  · subst h0; rfl
  · rw [if_neg (by simpa using h0)]
    simp only [Nat.repr, Nat.toDigits]
    rw [itodLoop_eq_toDigitsCore 32 i (i + 1) [] h0 h (by omega)]
    rfl

theorem itodLoop_ne_nil (bp : Nat) (i : Nat) (h0 : i ≠ 0) (hlt : i < 10 ^ bp) :
    itodLoop i bp [] ≠ [] := by
  cases bp with
  | zero => simp at hlt; omega
  | succ b =>
    obtain ⟨k, rfl⟩ : ∃ k, i = k + 1 := ⟨i - 1, by omega⟩
    simp only [itodLoop]
    rw [itodLoop_append b ((k + 1) / 10) [Char.ofNat ((k + 1) % 10 + 48)]]
    simp

theorem itodLoop_head_ne_zero (bp : Nat) :
    ∀ i, i ≠ 0 → i < 10 ^ bp → (itodLoop i bp []).head? ≠ some ('0') := by
  induction bp with
  | zero => intro i h0 hlt; simp at hlt; omega
  | succ b ih =>
    intro i h0 hlt
    obtain ⟨k, rfl⟩ : ∃ k, i = k + 1 := ⟨i - 1, by omega⟩
    simp only [itodLoop]
    rw [itodLoop_append b ((k + 1) / 10) [Char.ofNat ((k + 1) % 10 + 48)]]
    by_cases hdiv : (k + 1) / 10 = 0
    · rw [hdiv]
      have hk : k < 9 := by omega
      simp only [itodLoop, List.nil_append, List.head?_cons]
      intro hcontra
      have : Char.ofNat ((k + 1) % 10 + 48) = '0' := by
        injection hcontra
      interval_cases k <;> simp_all
    · have hblt : (k + 1) / 10 < 10 ^ b := by
        rw [Nat.div_lt_iff_lt_mul (by norm_num)]
        calc k + 1 < 10 ^ (b + 1) := hlt
        _ = 10 ^ b * 10 := by rw [pow_succ]
      have hne := itodLoop_ne_nil b ((k + 1) / 10) hdiv hblt
      have hih := ih ((k + 1) / 10) hdiv hblt
      cases hA : itodLoop ((k + 1) / 10) b [] with
      | nil => exact absurd hA hne
      | cons x xs =>
        rw [hA] at hih
        simpa using hih

/-- C10.  For every `uint` value, `itod` returns the standard base-10
decimal string (it agrees with `Nat.repr`), with no leading zero for
nonzero input, and `itod 0 = "0"`. -/
theorem claim_C10_itod_decimal (i : Nat) (h : i < 2 ^ 64) :
    itod i = Nat.repr i ∧ (i ≠ 0 → (itod i).data.head? ≠ some ('0')) ∧ itod 0 = ("0") := by
  have h32 : i < 10 ^ 32 := lt_trans h (by norm_num)
  refine ⟨itod_eq_repr i h32, ?_, rfl⟩
  intro h0
  have hh := itodLoop_head_ne_zero 32 i h0 h32
  unfold itod
  rw [if_neg (by simpa using h0)]
  exact hh

/-- Witness for C10 at `i = 906090`. -/
theorem claim_C10_itod_decimal_witness : itod 906090 = Nat.repr 906090 :=
  (claim_C10_itod_decimal 906090 (by norm_num)).1

/-! ### Original-destination decoding (C7) -/

/-- C7.  For a 16-byte `SO_ORIGINAL_DST` result, the port is the
big-endian 16-bit value of bytes 2 and 3 (`b2*256 + b3`, no wrap needed
since bytes are < 256), and the address is the dotted-decimal rendering
of bytes 4 through 7 in order. -/
theorem claim_C7_original_dst_decode (m : List Nat) (hlen : m.length = 16)
    (hbytes : ∀ b ∈ m, b < 256) :
    (getOriginalDstDecode m).2 = 256 * m.getD 2 0 + m.getD 3 0 ∧
    (getOriginalDstDecode m).1 =
      Nat.repr (m.getD 4 0) ++ (".") ++ Nat.repr (m.getD 5 0) ++ (".") ++
      Nat.repr (m.getD 6 0) ++ (".") ++ Nat.repr (m.getD 7 0) := by
  have hb : ∀ j, j < 16 → m.getD j 0 < 256 := by
    intro j hj
    apply hbytes
    have hjl : j < m.length := by omega
    rw [List.getD_eq_getElem?_getD, List.getElem?_eq_getElem hjl]
    simp
  constructor
  · have h2 := hb 2 (by omega)
    have h3 := hb 3 (by omega)
    show ((m.getD 2 0 % 65536) * 256 % 65536 + m.getD 3 0 % 65536) % 65536 =
      256 * m.getD 2 0 + m.getD 3 0
    omega
  · show itod (m.getD 4 0) ++ (".") ++ itod (m.getD 5 0) ++ (".") ++
      itod (m.getD 6 0) ++ (".") ++ itod (m.getD 7 0) = _
    rw [itod_eq_repr _ (lt_trans (hb 4 (by omega)) (by norm_num)),
      itod_eq_repr _ (lt_trans (hb 5 (by omega)) (by norm_num)),
      itod_eq_repr _ (lt_trans (hb 6 (by omega)) (by norm_num)),
      itod_eq_repr _ (lt_trans (hb 7 (by omega)) (by norm_num))]

/-- Witness for C7 at the byte layout quoted in the source comment
(lines 573-575): port 8080, address 206.190.36.45. -/
theorem claim_C7_original_dst_decode_witness :
    (getOriginalDstDecode [2, 0, 31, 144, 206, 190, 36, 45, 0, 0, 0, 0, 0, 0, 0, 0]).2 =
      8080 := by
  rw [(claim_C7_original_dst_decode [2, 0, 31, 144, 206, 190, 36, 45, 0, 0, 0, 0, 0, 0, 0, 0]
    (by decide) (by decide)).1]
  decide

/-! ### Reverse-lookup cache (C8) -/

theorem and_65535_eq_mod (n : Nat) : n &&& 65535 = n % 65536 := by
  have h : (65535 : Nat) = 2 ^ 16 - 1 := by norm_num
  rw [h, Nat.and_pow_two_sub_one_eq_mod]

theorem mapErase_keys_sublist (k : String) (m : List (String × cacheEntry)) :
    ((mapErase k m).map Prod.fst).Sublist (m.map Prod.fst) :=
  List.Sublist.map Prod.fst (List.filter_sublist m)

theorem mapErase_nodup (k : String) (m : List (String × cacheEntry))
    (h : (m.map Prod.fst).Nodup) : ((mapErase k m).map Prod.fst).Nodup :=
  List.Nodup.sublist (mapErase_keys_sublist k m) h

theorem not_mem_mapErase_self (k : String) (m : List (String × cacheEntry)) :
    k ∉ (mapErase k m).map Prod.fst := by
  intro hmem
  rcases List.mem_map.mp hmem with ⟨e, he, hfst⟩
  rcases List.mem_filter.mp he with ⟨_, hne⟩
  simp only [bne_iff_ne, ne_eq, decide_eq_true_eq] at hne
  exact hne hfst

theorem mapInsert_nodup (k : String) (v : cacheEntry) (m : List (String × cacheEntry))
    (h : (m.map Prod.fst).Nodup) : ((mapInsert k v m).map Prod.fst).Nodup := by
  simp only [mapInsert, List.map_cons]
  exact List.nodup_cons.mpr ⟨not_mem_mapErase_self k m, mapErase_nodup k m h⟩

theorem mem_of_mem_mapErase (k : String) (m : List (String × cacheEntry)) {x : String}
    (h : x ∈ (mapErase k m).map Prod.fst) : x ∈ m.map Prod.fst := by
  rcases List.mem_map.mp h with ⟨e, he, hfst⟩
  exact hfst ▸ List.mem_map_of_mem Prod.fst (List.mem_of_mem_filter he)

theorem ne_of_mem_mapErase (k : String) (m : List (String × cacheEntry)) {x : String}
    (h : x ∈ (mapErase k m).map Prod.fst) : x ≠ k := by
  rcases List.mem_map.mp h with ⟨e, he, hfst⟩
  rcases List.mem_filter.mp he with ⟨_, hne⟩
  simp only [bne_iff_ne, ne_eq, decide_eq_true_eq] at hne
  exact hfst ▸ hne

theorem cacheWF_store (c : reverseLookupCache) (now : Nat) (ip hn : String)
    (hwf : cacheWF c) : cacheWF (c.store now ip hn) := by
  obtain ⟨hnd, hcov, hnext⟩ := hwf
  refine ⟨?_, ?_, ?_⟩
  · exact mapInsert_nodup ip _ _ (mapErase_nodup _ _ hnd)
  · intro k hk
    simp only [reverseLookupCache.store, mapInsert, List.map_cons, List.mem_cons] at hk
    rcases hk with hk | hk
    · subst hk
      exact ⟨c.next, hnext, by rw [show (c.store now k hn).keys =
        Function.update c.keys c.next k from rfl, Function.update_same]⟩
    · have hkm : k ∈ (mapErase (c.keys c.next) c.hostnames).map Prod.fst :=
        mem_of_mem_mapErase ip _ hk
      have hkold : k ≠ c.keys c.next := ne_of_mem_mapErase _ _ hkm
      rcases hcov k (mem_of_mem_mapErase _ _ hkm) with ⟨i, hi, hki⟩
      have hine : i ≠ c.next := by
        intro he
        subst he
        exact hkold hki.symm
      refine ⟨i, hi, ?_⟩
      rw [show (c.store now ip hn).keys = Function.update c.keys c.next ip from rfl,
        Function.update_noteq hine]
      exact hki
  · show (c.next + 1) &&& 65535 < 65536
    rw [and_65535_eq_mod]
    exact Nat.mod_lt _ (by norm_num)

theorem cacheWF_lookup (c : reverseLookupCache) (now : Nat) (ip : String)
    (hwf : cacheWF c) : cacheWF ((c.lookup now ip).2) := by
  obtain ⟨hnd, hcov, hnext⟩ := hwf
  unfold reverseLookupCache.lookup
  cases hf : mapFind ip c.hostnames with
  | none => exact ⟨hnd, hcov, hnext⟩
  | some hit =>
    dsimp only
    by_cases hexp : now < hit.expires
    · rw [if_pos hexp]
      exact ⟨hnd, hcov, hnext⟩
    · rw [if_neg hexp]
      exact ⟨mapErase_nodup _ _ hnd,
        fun k hk => hcov k (mem_of_mem_mapErase _ _ hk), hnext⟩

theorem cacheWF_init : cacheWF NewReverseLookupCache := by
  refine ⟨List.nodup_nil, ?_, by show (0 : Nat) < 65536; norm_num⟩
  intro k hk
  simp [NewReverseLookupCache] at hk

theorem execCacheOps_WF (ops : List CacheOp) :
    ∀ c, cacheWF c → cacheWF (execCacheOps c ops) := by
  induction ops with
  | nil => intro c h; exact h
  | cons op rest ih =>
    intro c h
    cases op with
    | store now ip hn => exact ih _ (cacheWF_store c now ip hn h)
    | lookup now ip => exact ih _ (cacheWF_lookup c now ip h)

theorem mapSize_le_of_WF (c : reverseLookupCache) (hwf : cacheWF c) :
    mapSize c ≤ 65536 := by
  obtain ⟨hnd, hcov, _⟩ := hwf
  have hsub : (c.hostnames.map Prod.fst).toFinset ⊆ (Finset.range 65536).image c.keys := by
    intro k hk
    rcases hcov k (List.mem_toFinset.mp hk) with ⟨i, hi, hki⟩
    exact Finset.mem_image.mpr ⟨i, Finset.mem_range.mpr hi, hki⟩
  have h1 : (c.hostnames.map Prod.fst).length ≤ 65536 := by
    rw [← List.toFinset_card_of_nodup hnd]
    calc (c.hostnames.map Prod.fst).toFinset.card
        ≤ ((Finset.range 65536).image c.keys).card := Finset.card_le_card hsub
      _ ≤ (Finset.range 65536).card := Finset.card_image_le
      _ = 65536 := Finset.card_range _
  simpa [mapSize] using h1

theorem runStores_append (c : reverseLookupCache) (l : List (Nat × String × String))
    (p : Nat × String × String) :
    runStores c (l ++ [p]) = (runStores c l).store p.1 p.2.1 p.2.2 := by
  simp [runStores, List.foldl_append]

theorem runStores_next (l : List (Nat × String × String)) :
    (runStores NewReverseLookupCache l).next = l.length % 65536 := by
  induction l using List.reverseRecOn with
  | nil => rfl
  | append_singleton as a ih =>
    rw [runStores_append]
    show ((runStores NewReverseLookupCache as).next + 1) &&& 65535 = (as ++ [a]).length % 65536
    rw [and_65535_eq_mod, ih, List.length_append]
    simp [Nat.mod_add_mod]

theorem runStores_keys_no_touch (B : List (Nat × String × String)) :
    ∀ (C : List (Nat × String × String)) (i : Nat),
    (∀ j, C.length ≤ j → j < C.length + B.length → j % 65536 ≠ i) →
    (runStores NewReverseLookupCache (C ++ B)).keys i =
      (runStores NewReverseLookupCache C).keys i := by
  induction B with
  | nil => intro C i _; simp
  | cons p B' ih =>
    intro C i hcond
    have hcond' : ∀ j, (C ++ [p]).length ≤ j → j < (C ++ [p]).length + B'.length →
        j % 65536 ≠ i := by
      intro j hj1 hj2
      simp only [List.length_append, List.length_cons, List.length_nil] at hj1 hj2
      refine hcond j (by omega) ?_
      simp only [List.length_cons]
      omega
    have hne : i ≠ C.length % 65536 := by
      intro he
      refine hcond C.length (Nat.le_refl _) ?_ he.symm
      simp only [List.length_cons]
      omega
    have h1 : C ++ p :: B' = (C ++ [p]) ++ B' := by simp
    rw [h1, ih (C ++ [p]) i hcond', runStores_append]
    show Function.update (runStores NewReverseLookupCache C).keys
        ((runStores NewReverseLookupCache C).next) p.2.1 i =
      (runStores NewReverseLookupCache C).keys i
    rw [runStores_next, Function.update_apply, if_neg hne]

theorem runStores_evicts_oldest (A : List (Nat × String × String))
    (p : Nat × String × String) (B : List (Nat × String × String))
    (hB : B.length = 65535) :
    (runStores NewReverseLookupCache (A ++ p :: B)).keys
      ((runStores NewReverseLookupCache (A ++ p :: B)).next) = p.2.1 := by
  have hnext : (runStores NewReverseLookupCache (A ++ p :: B)).next = A.length % 65536 := by
    rw [runStores_next, List.length_append, List.length_cons, hB]
    omega
  rw [hnext]
  have hcond : ∀ j, (A ++ [p]).length ≤ j → j < (A ++ [p]).length + B.length →
      j % 65536 ≠ A.length % 65536 := by
    intro j hj1 hj2
    simp only [List.length_append, List.length_cons, List.length_nil] at hj1 hj2
    rw [hB] at hj2
    omega
  have h1 : A ++ p :: B = (A ++ [p]) ++ B := by simp
  rw [h1, runStores_keys_no_touch B (A ++ [p]) (A.length % 65536) hcond, runStores_append]
  show Function.update (runStores NewReverseLookupCache A).keys
      ((runStores NewReverseLookupCache A).next) p.2.1 (A.length % 65536) = p.2.1
  rw [runStores_next, Function.update_apply, if_pos rfl]

theorem mapFind_store_self (c : reverseLookupCache) (now : Nat) (ip hn : String) :
    mapFind ip ((c.store now ip hn).hostnames) = some ⟨hn, now + 3600⟩ := by
  show mapFind ip (mapInsert ip ⟨hn, now + 3600⟩ (mapErase (c.keys c.next) c.hostnames)) = _
  simp [mapFind, mapInsert, List.find?]

/-- C8.  (i) After any sequence of `store`/`lookup` operations from the
fresh cache, the hostname map holds at most 65,536 entries.  (ii) In a
cache built by `n ≥ 65536` stores, the key in the slot `next` points at
is exactly the key inserted 65,536 stores earlier (the oldest key still
in the ring, FIFO), so the next store deletes precisely that key from the
map and overwrites that ring slot with its own key.  (iii) A stored entry
expires 3600 seconds (one hour) after its insertion time. -/
theorem claim_C8_reverse_lookup_cache (ops : List CacheOp)
    (A : List (Nat × String × String)) (p : Nat × String × String)
    (B : List (Nat × String × String)) (hB : B.length = 65535)
    (now : Nat) (ip hostname : String) (c : reverseLookupCache) :
    mapSize (execCacheOps NewReverseLookupCache ops) ≤ 65536 ∧
    (runStores NewReverseLookupCache (A ++ p :: B)).keys
      ((runStores NewReverseLookupCache (A ++ p :: B)).next) = p.2.1 ∧
    ((runStores NewReverseLookupCache (A ++ p :: B)).store now ip hostname).hostnames =
      mapInsert ip ⟨hostname, now + 3600⟩
        (mapErase p.2.1 (runStores NewReverseLookupCache (A ++ p :: B)).hostnames) ∧
    ((runStores NewReverseLookupCache (A ++ p :: B)).store now ip hostname).keys
      ((runStores NewReverseLookupCache (A ++ p :: B)).next) = ip ∧
    mapFind ip ((c.store now ip hostname).hostnames) = some ⟨hostname, now + 3600⟩ := by
  have hev := runStores_evicts_oldest A p B hB
  refine ⟨mapSize_le_of_WF _ (execCacheOps_WF ops _ cacheWF_init), hev, ?_, ?_,
    mapFind_store_self c now ip hostname⟩
  · show mapInsert ip ⟨hostname, now + 3600⟩
      (mapErase ((runStores NewReverseLookupCache (A ++ p :: B)).keys
        ((runStores NewReverseLookupCache (A ++ p :: B)).next))
        (runStores NewReverseLookupCache (A ++ p :: B)).hostnames) = _
    rw [hev]
  · show Function.update (runStores NewReverseLookupCache (A ++ p :: B)).keys
      ((runStores NewReverseLookupCache (A ++ p :: B)).next) ip
      ((runStores NewReverseLookupCache (A ++ p :: B)).next) = ip
    rw [Function.update_apply, if_pos rfl]

/-- Witness for C8: the fresh cache, one store; the FIFO clause is
instantiated with a ring-filling block of 65,535 stores after the probed
one. -/
theorem claim_C8_reverse_lookup_cache_witness :
    mapFind ("ip") ((NewReverseLookupCache.store 7 ("ip") ("host")).hostnames) =
      some ⟨("host"), 7 + 3600⟩ :=
  (claim_C8_reverse_lookup_cache [] [] (0, ("k0"), ("h0"))
    (List.replicate 65535 (0, ("kb"), ("hb"))) (List.length_replicate _ _) 7 ("ip") ("host")
    NewReverseLookupCache).2.2.2.2
